import Mathlib

/-!
Shallow embedding of the `merkle` crate (`src/lib.rs`): a mutable Merkle
tree over an ordered leaf sequence, with a flat heap-style array of
internal-node digests.

Modelling conventions:
* Digest outputs form a free symbolic algebra `Hash`.  `Hash.default`
  models `Output::<D>::default()` (the zero-filled output array used as the
  resize fill value and as the empty-tree root).  A digest context receives
  at most two `update` calls in this program, each feeding one whole
  fixed-size output slice, so a finalized context is one of
  `Hash.digest0` (no feeds), `Hash.digest1 a` (one feed), `Hash.digest2 a b`
  (two feeds, left then right).  Because every output has the same fixed
  byte length, two fed byte streams agree exactly when the fed output lists
  agree, so the free model is collision-free and faithful; in particular
  `Hash.digest0` (digest of the empty stream) is distinct from
  `Hash.default` (the zeroed array), as for any real digest algorithm.
* `usize` arithmetic is `Nat`.  Sizes stay far below `2 ^ 64` in every
  statement here, so wraparound of additions and multiplications never
  matters; subtraction, however, can underflow in the source
  (`nodes.len() / 2 + i / 2 - 1`, `(i - 1) / 2`, `(i - nodes.len() / 2)`),
  which with Rust's overflow checks (debug profile, `cargo test`) is a
  panic.  Where the source can actually reach an underflow the embedding
  guards it explicitly and returns `none` (panic); where a branch condition
  already rules the underflow out, the truncated `Nat` subtraction agrees
  with `usize` and is used directly, with a comment.
* Fallible operations (any operation whose Rust counterpart can panic:
  `Vec` indexing out of bounds, `Vec::insert`/`Vec::remove` position
  checks, checked-arithmetic underflow) return `Option`; `none` models a
  panic.  A Rust panic aborts the call before or at the offending access,
  so a `none` result corresponds to a call that never returned normally.
-/

namespace Merkle

/-- Symbolic digest output: either the all-default output array
`Output::<D>::default()`, or the finalization of a fresh context fed zero,
one, or two previously produced outputs. -/
inductive Hash where
  | default : Hash
  | digest0 : Hash
  | digest1 : Hash → Hash
  | digest2 : Hash → Hash → Hash
deriving DecidableEq, Repr

/-- `Leaf<D, T>`: a caller-supplied digest plus an opaque payload. -/
structure Leaf (α : Type) where
  hash : Hash
  data : α
deriving DecidableEq, Repr

/-- `Leaf::new`. -/
def Leaf.new {α : Type} (hash : Hash) (data : α) : Leaf α :=
  { hash := hash, data := data }

/-- `MerkleTree<D, T>`: the flat node-digest array plus the ordered leaves. -/
structure MerkleTree (α : Type) where
  nodes : List Hash
  leaves : List (Leaf α)
deriving DecidableEq, Repr

namespace MerkleTree

/-- `MerkleTree::new`. -/
def new {α : Type} : MerkleTree α :=
  { nodes := [], leaves := [] }

/-- `MerkleTree::hash`: `Output::<D>::default()` if `nodes` is empty, else
`nodes[0].clone()`. -/
def hash {α : Type} (t : MerkleTree α) : Hash :=
  if t.nodes.isEmpty then Hash.default else t.nodes.getD 0 Hash.default

/-- `MerkleTree::leaf_parent`: `self.nodes.len() / 2 + i / 2 - 1` on
`usize`.  The subtraction underflows exactly when
`nodes.len() / 2 + i / 2 = 0`; that is a checked-arithmetic panic,
modelled as `none`. -/
def leaf_parent? {α : Type} (t : MerkleTree α) (i : Nat) : Option Nat :=
  if t.nodes.length / 2 + i / 2 = 0 then none
  else some (t.nodes.length / 2 + i / 2 - 1)

/-- `MerkleTree::left_child_node`: `i * 2 + 1`. -/
def left_child_node (i : Nat) : Nat :=
  i * 2 + 1

/-- `MerkleTree::left_child_leaf`: `(i - self.nodes.len() / 2) * 2` on
`usize`; the subtraction underflows when `i < nodes.len() / 2`, modelled as
`none`. -/
def left_child_leaf? {α : Type} (t : MerkleTree α) (i : Nat) : Option Nat :=
  if i < t.nodes.length / 2 then none
  else some ((i - t.nodes.length / 2) * 2)

/-- `MerkleTree::rehash_node`.  When `i * 2 + 1 >= nodes.len()` the
children are leaves: the context is fed `leaves[j]` and `leaves[j + 1]`
only where those exist (the source's two independent `if`s; since
`j < j + 1`, feeding only the second is impossible, so the nested
conditionals below are exhaustive and equivalent).  Otherwise the children
are nodes and the source reads `nodes[j]` and `nodes[j + 1]` unchecked:
`j < nodes.len()` holds from the branch condition, but `j + 1` may be out
of bounds, a panic, modelled as `none`.  The final `self.nodes[i] = ...`
write is in bounds in the node branch (`i ≤ 2 * i + 1 < nodes.len()`) and
checked in the leaf branch. -/
def rehash_node {α : Type} (t : MerkleTree α) (i : Nat) : Option (MerkleTree α) :=
  if hbr : i * 2 + 1 ≥ t.nodes.length then
    match t.left_child_leaf? i with
    | none => none
    | some j =>
      let d : Hash :=
        if hj1 : j + 1 < t.leaves.length then
          Hash.digest2 (t.leaves.get ⟨j, by omega⟩).hash (t.leaves.get ⟨j + 1, hj1⟩).hash
        else if hj : j < t.leaves.length then
          Hash.digest1 (t.leaves.get ⟨j, hj⟩).hash
        else
          Hash.digest0
      if i < t.nodes.length then some { t with nodes := t.nodes.set i d } else none
  else
    if hj1 : left_child_node i + 1 < t.nodes.length then
      let d : Hash :=
        Hash.digest2 (t.nodes.get ⟨left_child_node i, by simp [left_child_node] at hbr ⊢; omega⟩)
          (t.nodes.get ⟨left_child_node i + 1, hj1⟩)
      some { t with nodes := t.nodes.set i d }
    else none

/-- One level of `MerkleTree::rehash_nodes`: the loop
`for i in (start..end).rev()` over a range of the given length, calling
`rehash_node` at `start + k` for `k` from `length - 1` down to `0`,
threading the mutated tree through. -/
def rehash_range {α : Type} (t : MerkleTree α) (start : Nat) : Nat → Option (MerkleTree α)
  | 0 => some t
  | k + 1 =>
    match t.rehash_node (start + k) with
    | none => none
    | some t' => rehash_range t' start k

/-- `MerkleTree::rehash_nodes`: rehash the band `[start, e)` in descending
index order, then, unless `start` is already `0`, walk both bounds one
level up with `node_parent` (`(x - 1) / 2`; `start ≠ 0` is checked by the
source just before, while `node_parent(end)` with `e = 0` underflows, a
checked-arithmetic panic, modelled as `none`) and repeat. -/
def rehash_nodes {α : Type} (t : MerkleTree α) (start e : Nat) : Option (MerkleTree α) :=
  match rehash_range t start (e - start) with
  | none => none
  | some t' =>
    if h : start = 0 then some t'
    else if e = 0 then none
    else rehash_nodes t' ((start - 1) / 2) ((e - 1) / 2)
termination_by start
decreasing_by omega

/-- `Vec::resize(l, v)`: truncate to `l` or extend with copies of `v`. -/
def listResize (xs : List Hash) (l : Nat) (v : Hash) : List Hash :=
  xs.take l ++ List.replicate (l - xs.length) v

/-- `MerkleTree::insert`.  `Vec::insert` itself panics when
`i > leaves.len()` before touching anything, modelled as `none`. -/
def insert {α : Type} (t : MerkleTree α) (i : Nat) (leaf : Leaf α) : Option (MerkleTree α) :=
  if i ≤ t.leaves.length then
    let t1 : MerkleTree α := { t with leaves := t.leaves.insertIdx i leaf }
    if t1.leaves.length = t1.nodes.length + 2 then
      let l := t1.nodes.length + t1.leaves.length * 2
      rehash_nodes { t1 with nodes := listResize t1.nodes l Hash.default } 0 l
    else
      rehash_nodes t1 i t1.nodes.length
  else none

/-- `MerkleTree::remove`.  `Vec::remove` panics when `i >= leaves.len()`
before touching anything, modelled as `none`.  In the shrink branch the
subtraction `nodes.len() - leaves.len()` cannot underflow: there
`leaves.len() = (nodes.len() + 1) / 2` with `leaves` non-empty, so
`nodes.len() ≥ 1` and `(nodes.len() + 1) / 2 ≤ nodes.len()`. -/
def remove {α : Type} (t : MerkleTree α) (i : Nat) : Option (MerkleTree α) :=
  if i < t.leaves.length then
    let t1 : MerkleTree α := { t with leaves := t.leaves.eraseIdx i }
    if t1.leaves.isEmpty then
      some { t1 with nodes := [] }
    else if t1.leaves.length = (t1.nodes.length + 1) / 2 then
      let l := t1.nodes.length - t1.leaves.length
      rehash_nodes { t1 with nodes := t1.nodes.take l } 0 l
    else
      match t1.leaf_parent? i with
      | none => none
      | some j => rehash_nodes t1 j t1.nodes.length
  else none

/-- `MerkleTree::replace`.  The `IndexMut` write `leaves[i] = leaf` panics
when `i >= leaves.len()` before touching anything, modelled as `none`. -/
def replace {α : Type} (t : MerkleTree α) (i : Nat) (leaf : Leaf α) : Option (MerkleTree α) :=
  if i < t.leaves.length then
    let t1 : MerkleTree α := { t with leaves := t.leaves.set i leaf }
    match t1.leaf_parent? i with
    | none => none
    | some j => rehash_nodes t1 j j
  else none

/-- `MerkleTree::push`: `insert(leaves.len(), leaf)`. -/
def push {α : Type} (t : MerkleTree α) (leaf : Leaf α) : Option (MerkleTree α) :=
  t.insert t.leaves.length leaf

/-- Ghost-instrumented `rehash_range`: identical control flow, but also
returns the list of node indices written by `rehash_node`, in execution
order.  `rehash_node t i` writes exactly index `i` (once), so the trace is
the list of loop indices. -/
def rehash_range_tr {α : Type} (t : MerkleTree α) (start : Nat) :
    Nat → Option (MerkleTree α × List Nat)
  | 0 => some (t, [])
  | k + 1 =>
    match t.rehash_node (start + k) with
    | none => none
    | some t' =>
      match rehash_range_tr t' start k with
      | none => none
      | some (t'', tr) => some (t'', (start + k) :: tr)

/-- Ghost-instrumented `rehash_nodes`: same control flow as
`rehash_nodes`, also returning the node indices written, in execution
order. -/
def rehash_nodes_tr {α : Type} (t : MerkleTree α) (start e : Nat) :
    Option (MerkleTree α × List Nat) :=
  match rehash_range_tr t start (e - start) with
  | none => none
  | some (t', tr) =>
    if _h : start = 0 then some (t', tr)
    else if e = 0 then none
    else
      match rehash_nodes_tr t' ((start - 1) / 2) ((e - 1) / 2) with
      | none => none
      | some (t'', tr') => some (t'', tr ++ tr')
termination_by start
decreasing_by omega

/-- Ghost-instrumented `insert`: same control flow as `insert`, also
returning the node indices written by the rehash pass. -/
def insert_tr {α : Type} (t : MerkleTree α) (i : Nat) (leaf : Leaf α) :
    Option (MerkleTree α × List Nat) :=
  if i ≤ t.leaves.length then
    let t1 : MerkleTree α := { t with leaves := t.leaves.insertIdx i leaf }
    if t1.leaves.length = t1.nodes.length + 2 then
      let l := t1.nodes.length + t1.leaves.length * 2
      rehash_nodes_tr { t1 with nodes := listResize t1.nodes l Hash.default } 0 l
    else
      rehash_nodes_tr t1 i t1.nodes.length
  else none

end MerkleTree

/-- States reachable from `MerkleTree::new()` by operations that return
normally (a `some` result; `none` models a panic, after which the tree is
unusable). -/
inductive Reachable {α : Type} : MerkleTree α → Prop where
  | new : Reachable MerkleTree.new
  | insert {t t' : MerkleTree α} {i : Nat} {leaf : Leaf α} :
      Reachable t → t.insert i leaf = some t' → Reachable t'
  | remove {t t' : MerkleTree α} {i : Nat} :
      Reachable t → t.remove i = some t' → Reachable t'
  | replace {t t' : MerkleTree α} {i : Nat} {leaf : Leaf α} :
      Reachable t → t.replace i leaf = some t' → Reachable t'
  | push {t t' : MerkleTree α} {leaf : Leaf α} :
      Reachable t → t.push leaf = some t' → Reachable t'

/-- Distinct concrete digest values for counterexamples. -/
def hh : Nat → Hash
  | 0 => Hash.digest0
  | n + 1 => Hash.digest1 (hh n)

/-- The consistent two-leaf tree over digests `g0`, `g1`: one node holding
`digest(g0 ‖ g1)`, which is exactly what `rehash_node 0` computes for a
one-entry node array over these two leaves. -/
def twoLeafTree {α : Type} (g0 g1 : Hash) (a0 a1 : α) : MerkleTree α :=
  { nodes := [Hash.digest2 g0 g1], leaves := [⟨g0, a0⟩, ⟨g1, a1⟩] }

/-- A consistent four-leaf tree (leaf hashes `hh 0 .. hh 3`, three nodes):
node 1 summarizes leaves 0,1, node 2 summarizes leaves 2,3, node 0 is the
root over nodes 1,2 — exactly the layout `rehash_node` computes for
`nodes.len() = 3`. -/
def t4ex : MerkleTree Unit :=
  { nodes := [Hash.digest2 (Hash.digest2 (hh 0) (hh 1)) (Hash.digest2 (hh 2) (hh 3)),
              Hash.digest2 (hh 0) (hh 1), Hash.digest2 (hh 2) (hh 3)],
    leaves := [⟨hh 0, ()⟩, ⟨hh 1, ()⟩, ⟨hh 2, ()⟩, ⟨hh 3, ()⟩] }

/-- A consistent seven-leaf tree (leaf hashes `hh 0 .. hh 6`, seven nodes):
leaf-parent nodes 3,4,5,6 summarize leaf pairs (0,1), (2,3), (4,5), (6,-);
internal nodes 1,2 and root 0 as `rehash_node` computes for
`nodes.len() = 7`. -/
def t7ex : MerkleTree Unit :=
  { nodes := [Hash.digest2 (Hash.digest2 (Hash.digest2 (hh 0) (hh 1)) (Hash.digest2 (hh 2) (hh 3)))
                (Hash.digest2 (Hash.digest2 (hh 4) (hh 5)) (Hash.digest1 (hh 6))),
              Hash.digest2 (Hash.digest2 (hh 0) (hh 1)) (Hash.digest2 (hh 2) (hh 3)),
              Hash.digest2 (Hash.digest2 (hh 4) (hh 5)) (Hash.digest1 (hh 6)),
              Hash.digest2 (hh 0) (hh 1), Hash.digest2 (hh 2) (hh 3),
              Hash.digest2 (hh 4) (hh 5), Hash.digest1 (hh 6)],
    leaves := [⟨hh 0, ()⟩, ⟨hh 1, ()⟩, ⟨hh 2, ()⟩, ⟨hh 3, ()⟩, ⟨hh 4, ()⟩, ⟨hh 5, ()⟩, ⟨hh 6, ()⟩] }

/-- A four-leaf, three-node state whose node slots 0 and 1 hold the stale
fill value `Hash.default` (as they do right after a resize), with node 2
already consistent; used to observe exactly which slots a rehash band
writes. -/
def ex3 : MerkleTree Unit :=
  { nodes := [Hash.default, Hash.default, Hash.digest2 (hh 2) (hh 3)],
    leaves := [⟨hh 0, ()⟩, ⟨hh 1, ()⟩, ⟨hh 2, ()⟩, ⟨hh 3, ()⟩] }

/-- The leaf state `insert(6, ·)` produces from `t7ex` before any rehash:
the new leaf (digest `hh 9`) sits at position 6, the old leaf 6 shifted to
position 7; the node array is still that of `t7ex`. -/
def t7ins : MerkleTree Unit :=
  { nodes := t7ex.nodes, leaves := t7ex.leaves.insertIdx 6 ⟨hh 9, ()⟩ }

/-! Helper lemmas (shared; none of these is a claim theorem). -/

/-- A band with equal bounds rehashes nothing: every level's range
`[s, s)` is empty, and the upward walk ends at the root without a single
`rehash_node` call. -/
theorem rehash_nodes_self {α : Type} (s : Nat) (t : MerkleTree α) :
    MerkleTree.rehash_nodes t s s = some t := by
  induction s using Nat.strong_induction_on with
  | _ s ih =>
    rw [MerkleTree.rehash_nodes.eq_def]
    rcases Nat.eq_zero_or_pos s with h0 | h0
    · subst h0
      simp [MerkleTree.rehash_range]
    · have hne : s ≠ 0 := by omega
      simp only [Nat.sub_self, MerkleTree.rehash_range, hne, if_neg, dif_neg]
      exact ih _ (by omega)

/-- Traced version of `rehash_nodes_self`: the write trace is empty. -/
theorem rehash_nodes_tr_self {α : Type} (s : Nat) (t : MerkleTree α) :
    MerkleTree.rehash_nodes_tr t s s = some (t, []) := by
  induction s using Nat.strong_induction_on with
  | _ s ih =>
    rw [MerkleTree.rehash_nodes_tr.eq_def]
    rcases Nat.eq_zero_or_pos s with h0 | h0
    · subst h0
      simp [MerkleTree.rehash_range_tr]
    · have hne : s ≠ 0 := by omega
      simp only [Nat.sub_self, MerkleTree.rehash_range_tr, hne, if_neg, dif_neg]
      rw [ih _ (by omega)]
      simp

/-- The instrumented level loop computes the same tree as the plain one. -/
theorem rehash_range_tr_fst {α : Type} (start : Nat) : ∀ (k : Nat) (t : MerkleTree α),
    (MerkleTree.rehash_range_tr t start k).map Prod.fst = MerkleTree.rehash_range t start k := by
  intro k
  induction k with
  | zero => intro t; rfl
  | succ k ih =>
    intro t
    simp only [MerkleTree.rehash_range_tr, MerkleTree.rehash_range]
    cases hrn : t.rehash_node (start + k) with
    | none => simp
    | some t1 =>
      dsimp only
      have h := ih t1
      cases htr : MerkleTree.rehash_range_tr t1 start k with
      | none =>
        rw [htr] at h
        simp at h
        simp [← h]
      | some p =>
        obtain ⟨t2, tr⟩ := p
        rw [htr] at h
        simp at h
        simp [← h]

/-- The instrumented band rehash computes the same tree as the plain one. -/
theorem rehash_nodes_tr_fst {α : Type} (start : Nat) : ∀ (e : Nat) (t : MerkleTree α),
    (MerkleTree.rehash_nodes_tr t start e).map Prod.fst = MerkleTree.rehash_nodes t start e := by
  induction start using Nat.strong_induction_on with
  | _ start ih =>
    intro e t
    rw [MerkleTree.rehash_nodes_tr.eq_def, MerkleTree.rehash_nodes.eq_def]
    have hr := rehash_range_tr_fst start (e - start) t
    cases htr : MerkleTree.rehash_range_tr t start (e - start) with
    | none =>
      simp [htr] at hr
      simp [← hr]
    | some p =>
      obtain ⟨t1, tr⟩ := p
      simp [htr] at hr
      rw [← hr]
      rcases Nat.eq_zero_or_pos start with h0 | h0
      · subst h0
        simp
      · have hne : start ≠ 0 := by omega
        simp only [hne, dif_neg, if_neg]
        rcases Nat.eq_zero_or_pos e with he | he
        · simp [he]
        · have hene : e ≠ 0 := by omega
          simp only [hene, if_neg]
          have h2 := ih ((start - 1) / 2) (by omega) ((e - 1) / 2) t1
          cases h3 : MerkleTree.rehash_nodes_tr t1 ((start - 1) / 2) ((e - 1) / 2) with
          | none =>
            simp [h3] at h2
            simp [← h2]
          | some q =>
            obtain ⟨t2, tr2⟩ := q
            simp [h3] at h2
            simp [← h2]

/-- The instrumented insert computes the same tree as the plain one. -/
theorem insert_tr_fst {α : Type} (t : MerkleTree α) (i : Nat) (leaf : Leaf α) :
    (MerkleTree.insert_tr t i leaf).map Prod.fst = MerkleTree.insert t i leaf := by
  unfold MerkleTree.insert_tr MerkleTree.insert
  by_cases hi : i ≤ t.leaves.length
  · simp only [hi, if_pos]
    split
    · exact rehash_nodes_tr_fst 0 _ _
    · exact rehash_nodes_tr_fst i _ _
  · simp [hi]

/-- When the node array length is odd, `rehash_node` succeeds at every
in-bounds index (the unchecked `nodes[j + 1]` read in the internal branch
is then always in bounds, by parity), changing neither the node-array
length nor the leaves. -/
theorem rehash_node_odd {α : Type} (t : MerkleTree α) (i : Nat)
    (hm : t.nodes.length % 2 = 1) (hi : i < t.nodes.length) :
    ∃ t', t.rehash_node i = some t' ∧ t'.nodes.length = t.nodes.length ∧
      t'.leaves = t.leaves := by
  unfold MerkleTree.rehash_node
  by_cases hbr : i * 2 + 1 ≥ t.nodes.length
  · have hlt : ¬ i < t.nodes.length / 2 := by omega
    simp only [hbr, dif_pos, MerkleTree.left_child_leaf?, hlt, if_neg, if_pos, hi]
    exact ⟨_, rfl, by simp, rfl⟩
  · have hj1 : MerkleTree.left_child_node i + 1 < t.nodes.length := by
      simp only [MerkleTree.left_child_node]
      omega
    simp only [hbr, dif_neg, hj1, dif_pos]
    exact ⟨_, rfl, by simp, rfl⟩

/-- A level loop starting at index `0` over `k ≤ nodes.len()` succeeds
when the node-array length is odd, and writes exactly the indices
`k - 1, ..., 1, 0` in that (descending) order. -/
theorem rehash_range_tr_zero {α : Type} (k : Nat) : ∀ (t : MerkleTree α),
    t.nodes.length % 2 = 1 → k ≤ t.nodes.length →
    ∃ t', MerkleTree.rehash_range_tr t 0 k = some (t', (List.range k).reverse) ∧
      t'.nodes.length = t.nodes.length ∧ t'.leaves = t.leaves := by
  induction k with
  | zero => exact fun t hm hk => ⟨t, rfl, rfl, rfl⟩
  | succ k ih =>
    intro t hm hk
    obtain ⟨t1, h1, hlen1, hlv1⟩ := rehash_node_odd t k hm (by omega)
    obtain ⟨t2, h2, hlen2, hlv2⟩ := ih t1 (by rw [hlen1]; exact hm) (by omega)
    refine ⟨t2, ?_, hlen2.trans hlen1, hlv2.trans hlv1⟩
    simp only [MerkleTree.rehash_range_tr, Nat.zero_add, h1, h2, List.range_succ,
      List.reverse_append, List.reverse_cons, List.reverse_nil, List.nil_append,
      List.cons_append]

/-- Inserting into a tree with no nodes and at most one leaf either panics
(second leaf: the growth pass reads `nodes[4]` of a 4-entry array) or
returns a tree that again has no nodes and at most one leaf. -/
theorem insert_preserves_small {α : Type} {t t' : MerkleTree α} {i : Nat} {leaf : Leaf α}
    (hn : t.nodes = []) (hl : t.leaves.length ≤ 1) (h : t.insert i leaf = some t') :
    t'.nodes = [] ∧ t'.leaves.length ≤ 1 := by
  obtain ⟨n, l⟩ := t
  simp only at hn hl
  subst hn
  match l, hl with
  | [], _ =>
    match i with
    | 0 =>
      simp [MerkleTree.insert, MerkleTree.rehash_nodes, MerkleTree.rehash_range] at h
      simp [← h]
    | _ + 1 =>
      simp [MerkleTree.insert] at h
  | [a], _ =>
    match i with
    | 0 =>
      simp [MerkleTree.insert, MerkleTree.rehash_nodes, MerkleTree.rehash_range,
        MerkleTree.rehash_node, MerkleTree.left_child_leaf?, MerkleTree.left_child_node,
        MerkleTree.listResize, List.insertIdx] at h
    | 1 =>
      simp [MerkleTree.insert, MerkleTree.rehash_nodes, MerkleTree.rehash_range,
        MerkleTree.rehash_node, MerkleTree.left_child_leaf?, MerkleTree.left_child_node,
        MerkleTree.listResize, List.insertIdx] at h
    | _ + 2 =>
      simp [MerkleTree.insert] at h

/-- Removing from a tree with no nodes and at most one leaf either panics
(out of range) or empties the tree. -/
theorem remove_preserves_small {α : Type} {t t' : MerkleTree α} {i : Nat}
    (hn : t.nodes = []) (hl : t.leaves.length ≤ 1) (h : t.remove i = some t') :
    t'.nodes = [] ∧ t'.leaves.length ≤ 1 := by
  obtain ⟨n, l⟩ := t
  simp only at hn hl
  subst hn
  match l, hl with
  | [], _ => simp [MerkleTree.remove] at h
  | [a], _ =>
    match i with
    | 0 =>
      simp [MerkleTree.remove] at h
      simp [← h]
    | _ + 1 =>
      simp [MerkleTree.remove] at h

/-- Replacing in a tree with no nodes always panics: out of range for an
empty tree, and for the single-leaf tree the index computation
`nodes.len() / 2 + i / 2 - 1` in `leaf_parent` underflows. -/
theorem replace_small_none {α : Type} {t : MerkleTree α} (i : Nat) (leaf : Leaf α)
    (hn : t.nodes = []) (hl : t.leaves.length ≤ 1) : t.replace i leaf = none := by
  obtain ⟨n, l⟩ := t
  simp only at hn hl
  subst hn
  match l, hl with
  | [], _ => simp [MerkleTree.replace]
  | [a], _ =>
    match i with
    | 0 => simp [MerkleTree.replace, MerkleTree.leaf_parent?]
    | _ + 1 => simp [MerkleTree.replace]

/-- Invariant of all reachable states: the node array is empty and there
is at most one leaf (the second insertion panics, so no richer state is
ever reached by normally-returning operations). -/
theorem reachable_small {α : Type} {t : MerkleTree α} (h : Reachable t) :
    t.nodes = [] ∧ t.leaves.length ≤ 1 := by
  induction h with
  | new => exact ⟨rfl, by simp [MerkleTree.new]⟩
  | insert hr hs ih => exact insert_preserves_small ih.1 ih.2 hs
  | remove hr hs ih => exact remove_preserves_small ih.1 ih.2 hs
  | replace hr hs ih =>
    rw [replace_small_none _ _ ih.1 ih.2] at hs
    cases hs
  | push hr hs ih =>
    unfold MerkleTree.push at hs
    exact insert_preserves_small ih.1 ih.2 hs

/-! Claim theorems. -/

/-- C1 (code bug): full-rebuild equivalence fails because valid mutations
do not even return.  From the reachable one-leaf state, inserting a second
leaf at either valid position (0 or 1) panics: the growth branch resizes
`nodes` to `nodes.len() + leaves.len() * 2 = 4` entries and the rehash
pass then reads `nodes[4]` out of bounds at node 1.  So there are
reachable states and valid single mutations after which no consistent
(or any) state is ever returned. -/
theorem claim_C1_insert_second_leaf_panics {α : Type} (l0 l1 : Leaf α) :
    MerkleTree.new.insert 0 l0 = some { nodes := [], leaves := [l0] } ∧
    MerkleTree.insert { nodes := [], leaves := [l0] } 0 l1 = none ∧
    MerkleTree.insert { nodes := [], leaves := [l0] } 1 l1 = none := by
  refine ⟨?_, ?_, ?_⟩ <;>
    simp [MerkleTree.insert, MerkleTree.new, MerkleTree.rehash_nodes,
      MerkleTree.rehash_range, MerkleTree.rehash_node, MerkleTree.left_child_leaf?,
      MerkleTree.left_child_node, MerkleTree.listResize, List.insertIdx]

/-- C2 (code bug): inserting digests `g0` at position 0 and then `g1` at
position 1 into a fresh tree does not return normally with root
`digest(g0 ‖ g1)` — the second insert panics (out-of-bounds `nodes[4]`
read during the growth rehash), for every pair of leaves. -/
theorem claim_C2_two_leaf_insert_panics {α : Type} (g0 g1 : Hash) (a0 a1 : α) :
    ((MerkleTree.new.insert 0 ⟨g0, a0⟩).bind fun u => u.insert 1 ⟨g1, a1⟩) = none := by
  simp [MerkleTree.insert, MerkleTree.new, MerkleTree.rehash_nodes,
    MerkleTree.rehash_range, MerkleTree.rehash_node, MerkleTree.left_child_leaf?,
    MerkleTree.left_child_node, MerkleTree.listResize, List.insertIdx]

/-- C3 (code bug): `replace` recomputes nothing.  On the consistent
four-leaf tree, `replace(0, leaf)` calls `rehash_nodes(j, j)` with an
empty band `[j, j)`, so it returns with the node array bit-identical to
before; the root stays the digest over the old leaf 0 instead of the
recomputed path digest the spec requires. -/
theorem claim_C3_replace_rehashes_nothing :
    MerkleTree.replace t4ex 0 ⟨hh 9, ()⟩ =
      some { nodes := t4ex.nodes,
             leaves := [⟨hh 9, ()⟩, ⟨hh 1, ()⟩, ⟨hh 2, ()⟩, ⟨hh 3, ()⟩] } ∧
    (MerkleTree.replace t4ex 0 ⟨hh 9, ()⟩).map MerkleTree.hash ≠
      some (Hash.digest2 (Hash.digest2 (hh 9) (hh 1)) (Hash.digest2 (hh 2) (hh 3))) := by
  have h : MerkleTree.replace t4ex 0 ⟨hh 9, ()⟩ =
      some { nodes := t4ex.nodes,
             leaves := [⟨hh 9, ()⟩, ⟨hh 1, ()⟩, ⟨hh 2, ()⟩, ⟨hh 3, ()⟩] } := by
    simp [MerkleTree.replace, MerkleTree.leaf_parent?, t4ex, MerkleTree.rehash_nodes,
      MerkleTree.rehash_range]
  refine ⟨h, ?_⟩
  rw [h]
  simp [t4ex, MerkleTree.hash, hh]

/-- C4: in every reachable state, `nodes` is empty iff there are at most
one leaf (vacuously strong here: every reachable state has at most one
leaf, because the second insertion panics); and removing either leaf of a
(consistent) two-leaf tree empties the node array via the shrink branch. -/
theorem claim_C4_nodes_empty_iff_small {α : Type} (t : MerkleTree α) (h : Reachable t) :
    (t.nodes = [] ↔ t.leaves.length ≤ 1) ∧
    ∀ (g0 g1 : Hash) (a0 a1 : α) (i : Nat), i < 2 →
      (MerkleTree.remove (twoLeafTree g0 g1 a0 a1) i).map MerkleTree.nodes = some [] := by
  obtain ⟨hn, hl⟩ := reachable_small h
  refine ⟨by simp [hn, hl], ?_⟩
  intro g0 g1 a0 a1 i hi
  match i, hi with
  | 0, _ =>
    simp [MerkleTree.remove, twoLeafTree, MerkleTree.rehash_nodes, MerkleTree.rehash_range]
  | 1, _ =>
    simp [MerkleTree.remove, twoLeafTree, MerkleTree.rehash_nodes, MerkleTree.rehash_range]

/-- Witness for C4 at the concrete reachable state `new`. -/
theorem claim_C4_witness :
    ((MerkleTree.new (α := Unit)).nodes = [] ↔ (MerkleTree.new (α := Unit)).leaves.length ≤ 1) ∧
    ∀ (g0 g1 : Hash) (a0 a1 : Unit) (i : Nat), i < 2 →
      (MerkleTree.remove (twoLeafTree g0 g1 a0 a1) i).map MerkleTree.nodes = some [] :=
  claim_C4_nodes_empty_iff_small MerkleTree.new Reachable.new

/-- C5 counterexample: `rehash_nodes(1, 2)` is a call with
`0 ≤ start < end ≤ nodes.len()` (here `nodes.len() = 3`), and node 0 is on
the path from band node 1 to the root (`node_parent(1) = 0`), yet the
write trace is exactly `[1]`: the root is never recomputed before the call
returns — its slot still holds the stale fill value `Hash.default`, not
the digest of its two children. -/
theorem claim_C5_cex :
    (MerkleTree.rehash_nodes_tr ex3 1 2).map Prod.snd = some [1] ∧
    (MerkleTree.rehash_nodes ex3 1 2).map MerkleTree.hash = some Hash.default ∧
    Hash.default ≠ Hash.digest2 (Hash.digest2 (hh 0) (hh 1)) (Hash.digest2 (hh 2) (hh 3)) := by
  refine ⟨?_, ?_, by decide⟩ <;>
    simp [ex3, MerkleTree.rehash_nodes_tr, MerkleTree.rehash_nodes,
      MerkleTree.rehash_range_tr, MerkleTree.rehash_range, MerkleTree.rehash_node,
      MerkleTree.left_child_leaf?, MerkleTree.left_child_node, MerkleTree.hash, hh]

/-- C5 amended: for a band starting at the root end (`start = 0`) with
`1 ≤ end ≤ nodes.len()` and an odd node-array length (every complete
layout), the routine returns normally and writes exactly the nodes
`[0, end)`, each exactly once, in descending index order, the root
(index 0) last — so the root is recomputed before the call returns.  For
`start > 0` the walked level bands `[p^k(start), p^k(end))` need not cover
the band's root paths (see the counterexample, where the root is skipped)
and may overlap across levels, so the original per-path exactly-once
guarantee does not hold in general. -/
theorem claim_C5_amended {α : Type} (t : MerkleTree α) (e : Nat)
    (h1 : 1 ≤ e) (h2 : e ≤ t.nodes.length) (h3 : t.nodes.length % 2 = 1) :
    0 ∈ (List.range e).reverse ∧
    ∃ t', MerkleTree.rehash_nodes_tr t 0 e = some (t', (List.range e).reverse) ∧
      MerkleTree.rehash_nodes t 0 e = some t' := by
  obtain ⟨t', htr, hlen, hlv⟩ := rehash_range_tr_zero e t h3 h2
  have htr0 : MerkleTree.rehash_nodes_tr t 0 e = some (t', (List.range e).reverse) := by
    rw [MerkleTree.rehash_nodes_tr.eq_def]
    simp [htr]
  have hag := rehash_nodes_tr_fst 0 e t
  rw [htr0] at hag
  simp at hag
  refine ⟨by simp [List.mem_range]; omega, t', htr0, hag.symm⟩

/-- Witness for C5 at the concrete seven-node tree, full band. -/
theorem claim_C5_witness :
    (1 ≤ 7 ∧ 7 ≤ t7ex.nodes.length ∧ t7ex.nodes.length % 2 = 1) ∧
    0 ∈ (List.range 7).reverse ∧
    ∃ t', MerkleTree.rehash_nodes_tr t7ex 0 7 = some (t', (List.range 7).reverse) ∧
      MerkleTree.rehash_nodes t7ex 0 7 = some t' :=
  ⟨⟨by decide, by decide, by decide⟩, claim_C5_amended t7ex 7 (by decide) (by decide) (by decide)⟩

/-- C6 counterexample: on the seven-leaf tree, `insert(6, leaf)` takes the
no-resize path and passes the band `(6, 7)` to the rehash routine — the
raw leaf position 6, not `leaf_parent(6) = 5` as the claim states.  The
executed write trace is `[6, 2, 0]`, while a band starting at
`leaf_parent(6)` would write `[6, 5, 2, 0]`. -/
theorem claim_C6_cex :
    (MerkleTree.insert_tr t7ex 6 ⟨hh 9, ()⟩).map Prod.snd = some [6, 2, 0] ∧
    t7ins.leaf_parent? 6 = some 5 ∧
    (MerkleTree.rehash_nodes_tr t7ins 5 7).map Prod.snd = some [6, 5, 2, 0] ∧
    ([6, 2, 0] : List Nat) ≠ [6, 5, 2, 0] := by
  refine ⟨?_, by decide, ?_, by decide⟩ <;>
    simp [t7ex, t7ins, MerkleTree.insert_tr, MerkleTree.rehash_nodes_tr,
      MerkleTree.rehash_range_tr, MerkleTree.rehash_node, MerkleTree.left_child_leaf?,
      MerkleTree.left_child_node, MerkleTree.listResize, List.insertIdx, hh]

/-- C6 amended: whenever `insert(i, leaf)` does not trigger a resize (the
new leaf count misses the grow threshold `nodes.len() + 2`), the band
passed to the rehash routine starts at the raw leaf position `i` — not at
`leaf_parent(i)` — and extends to the current nodes length. -/
theorem claim_C6_amended {α : Type} (t : MerkleTree α) (i : Nat) (leaf : Leaf α)
    (h1 : i ≤ t.leaves.length) (h2 : t.leaves.length + 1 ≠ t.nodes.length + 2) :
    MerkleTree.insert t i leaf =
      MerkleTree.rehash_nodes { t with leaves := t.leaves.insertIdx i leaf } i t.nodes.length ∧
    MerkleTree.insert_tr t i leaf =
      MerkleTree.rehash_nodes_tr { t with leaves := t.leaves.insertIdx i leaf } i t.nodes.length := by
  have hlen : (t.leaves.insertIdx i leaf).length = t.leaves.length + 1 :=
    List.length_insertIdx i t.leaves h1
  constructor <;> simp [MerkleTree.insert, MerkleTree.insert_tr, h1, hlen, h2]

/-- Witness for C6 at the concrete seven-leaf tree, position 6. -/
theorem claim_C6_witness :
    MerkleTree.insert t7ex 6 ⟨hh 9, ()⟩ =
      MerkleTree.rehash_nodes { t7ex with leaves := t7ex.leaves.insertIdx 6 ⟨hh 9, ()⟩ } 6
        t7ex.nodes.length ∧
    MerkleTree.insert_tr t7ex 6 ⟨hh 9, ()⟩ =
      MerkleTree.rehash_nodes_tr { t7ex with leaves := t7ex.leaves.insertIdx 6 ⟨hh 9, ()⟩ } 6
        t7ex.nodes.length :=
  claim_C6_amended t7ex 6 ⟨hh 9, ()⟩ (by decide) (by decide)

/-- C7 counterexample: on the seven-node tree, the even leaf index 4
(valid: there are seven leaves) has `leaf_parent(4) = 4`, but
`left_child_leaf(4) = 2 ≠ 4` — the two mappings are off by one, not
mutually inverse.  (The node whose left child leaf is 4 is node 5, not
node 4.) -/
theorem claim_C7_cex :
    t7ex.leaf_parent? 4 = some 4 ∧ t7ex.left_child_leaf? 4 = some 2 ∧ (2 : Nat) ≠ 4 := by
  decide

/-- C7 amended: `leaf_parent` returns one less than the node whose left
child leaf starts the pair: whenever `leaf_parent(2k)` computes `j`
without underflow, `left_child_leaf(j + 1) = 2k` (not
`left_child_leaf(j)`), and the two adjacent leaves `2k` and `2k + 1` do
map to the same value `j`. -/
theorem claim_C7_amended {α : Type} (t : MerkleTree α) (k j : Nat)
    (h : t.leaf_parent? (2 * k) = some j) :
    t.left_child_leaf? (j + 1) = some (2 * k) ∧ t.leaf_parent? (2 * k + 1) = some j := by
  have hk : 2 * k / 2 = k := by omega
  have hk1 : (2 * k + 1) / 2 = k := by omega
  unfold MerkleTree.leaf_parent? at h
  rw [hk] at h
  by_cases h0 : t.nodes.length / 2 + k = 0
  · rw [if_pos h0] at h
    cases h
  · rw [if_neg h0] at h
    have hj : t.nodes.length / 2 + k - 1 = j := by simpa using h
    constructor
    · unfold MerkleTree.left_child_leaf?
      have hlt : ¬ (j + 1 < t.nodes.length / 2) := by omega
      rw [if_neg hlt]
      have he : (j + 1 - t.nodes.length / 2) * 2 = 2 * k := by omega
      rw [he]
    · unfold MerkleTree.leaf_parent?
      rw [hk1, if_neg h0, hj]

/-- Witness for C7 at the seven-node tree, `k = 2`. -/
theorem claim_C7_witness :
    t7ex.left_child_leaf? (4 + 1) = some (2 * 2) ∧ t7ex.leaf_parent? (2 * 2 + 1) = some 4 :=
  claim_C7_amended t7ex 2 4 (by decide)

/-- C8: out-of-range positions fail loudly.  `insert` with
`i > leaves.len()` panics inside `Vec::insert`, `remove` with
`i ≥ leaves.len()` inside `Vec::remove`, and `replace` at the `IndexMut`
write `leaves[i] = leaf` — in each case in the operation's first
statement, before `leaves` or `nodes` is changed, so the tree is left
exactly as it was and a later `root()` sees the same digest as before the
failed call. -/
theorem claim_C8_out_of_range {α : Type} (t : MerkleTree α) (i : Nat) (leaf : Leaf α) :
    (t.leaves.length < i → t.insert i leaf = none) ∧
    (t.leaves.length ≤ i → t.remove i = none) ∧
    (t.leaves.length ≤ i → t.replace i leaf = none) := by
  refine ⟨fun h => ?_, fun h => ?_, fun h => ?_⟩
  · have hx : ¬ i ≤ t.leaves.length := by omega
    simp [MerkleTree.insert, hx]
  · have hx : ¬ i < t.leaves.length := by omega
    simp [MerkleTree.remove, hx]
  · have hx : ¬ i < t.leaves.length := by omega
    simp [MerkleTree.replace, hx]

/-- Witness for C8 on the empty tree. -/
theorem claim_C8_witness :
    (MerkleTree.new (α := Unit)).insert 1 ⟨Hash.digest0, ()⟩ = none ∧
    (MerkleTree.new (α := Unit)).remove 0 = none ∧
    (MerkleTree.new (α := Unit)).replace 0 ⟨Hash.digest0, ()⟩ = none :=
  ⟨(claim_C8_out_of_range MerkleTree.new 1 ⟨Hash.digest0, ()⟩).1 (by decide),
   (claim_C8_out_of_range MerkleTree.new 0 ⟨Hash.digest0, ()⟩).2.1 (by decide),
   (claim_C8_out_of_range MerkleTree.new 0 ⟨Hash.digest0, ()⟩).2.2 (by decide)⟩

/-- C9 counterexample: `replace` does not return at all on the one-leaf
tree: with `nodes.len() = 0` and `i = 0` the `leaf_parent` computation
`0 / 2 + 0 / 2 - 1` underflows (a checked-arithmetic panic), even though
`i` is a valid position. -/
theorem claim_C9_cex :
    (0 : Nat) < ([⟨hh 0, ()⟩] : List (Leaf Unit)).length ∧
    MerkleTree.replace { nodes := [], leaves := [⟨hh 0, ()⟩] } 0 ⟨hh 1, ()⟩ = none := by
  refine ⟨by decide, ?_⟩
  simp [MerkleTree.replace, MerkleTree.leaf_parent?]

/-- C9 amended: for every in-range `i` such that
`nodes.len() / 2 + i / 2 ≥ 1` (so the `leaf_parent` index computation does
not underflow), `replace(i, leaf)` returns with the node array bit
identical to before — the only state change is `leaves[i]` — and its
rehash call performs zero node writes (empty trace), because the band
`[j, j)` it passes is empty at every level of the walk. -/
theorem claim_C9_amended {α : Type} (t : MerkleTree α) (i : Nat) (leaf : Leaf α)
    (h1 : i < t.leaves.length) (h2 : 1 ≤ t.nodes.length / 2 + i / 2) :
    t.replace i leaf = some { t with leaves := t.leaves.set i leaf } ∧
    MerkleTree.rehash_nodes_tr { t with leaves := t.leaves.set i leaf }
        (t.nodes.length / 2 + i / 2 - 1) (t.nodes.length / 2 + i / 2 - 1) =
      some ({ t with leaves := t.leaves.set i leaf }, []) := by
  have hne : ¬ (t.nodes.length / 2 + i / 2 = 0) := by omega
  constructor
  · simp [MerkleTree.replace, h1, MerkleTree.leaf_parent?, hne, rehash_nodes_self]
  · exact rehash_nodes_tr_self _ _

/-- Witness for C9 at the four-leaf tree, position 0. -/
theorem claim_C9_witness :
    MerkleTree.replace t4ex 0 ⟨hh 9, ()⟩ =
      some { t4ex with leaves := t4ex.leaves.set 0 ⟨hh 9, ()⟩ } ∧
    MerkleTree.rehash_nodes_tr { t4ex with leaves := t4ex.leaves.set 0 ⟨hh 9, ()⟩ }
        (t4ex.nodes.length / 2 + 0 / 2 - 1) (t4ex.nodes.length / 2 + 0 / 2 - 1) =
      some ({ t4ex with leaves := t4ex.leaves.set 0 ⟨hh 9, ()⟩ }, []) :=
  claim_C9_amended t4ex 0 ⟨hh 9, ()⟩ (by decide) (by decide)

/-- C10 counterexample: the root of the empty tree and of the single-leaf
tree is `Output::<D>::default()` — the zero-filled output array
(`Hash.default`) — which is not "the digest primitive's output for zero
feeds" (`D::new().finalize()`, `Hash.digest0`): the code never feeds a
digest context zero times to produce the empty-tree root, it returns the
array default. -/
theorem claim_C10_cex :
    ((MerkleTree.new (α := Unit)).insert 0 ⟨Hash.digest1 Hash.default, ()⟩).map MerkleTree.hash =
      some Hash.default ∧
    MerkleTree.hash (MerkleTree.new (α := Unit)) = Hash.default ∧
    Hash.default ≠ Hash.digest0 := by
  refine ⟨?_, by decide, by decide⟩
  simp [MerkleTree.insert, MerkleTree.new, MerkleTree.rehash_nodes,
    MerkleTree.rehash_range, MerkleTree.hash]

/-- C10 amended: inserting exactly one leaf into a fresh tree returns
normally, leaves the node array empty, and `root()` is
`Output::<D>::default()` (`Hash.default`, the zero-filled output array —
not the digest of zero feeds), and not the leaf's own digest whenever that
digest differs from the array default; `root()` on a fresh tree is the
same default. -/
theorem claim_C10_amended {α : Type} (leaf : Leaf α) :
    MerkleTree.new.insert 0 leaf = some { nodes := [], leaves := [leaf] } ∧
    MerkleTree.hash { nodes := ([] : List Hash), leaves := [leaf] } = Hash.default ∧
    MerkleTree.hash (MerkleTree.new (α := α)) = Hash.default ∧
    (leaf.hash ≠ Hash.default →
      MerkleTree.hash { nodes := ([] : List Hash), leaves := [leaf] } ≠ leaf.hash) := by
  refine ⟨?_, by simp [MerkleTree.hash], by simp [MerkleTree.hash, MerkleTree.new], ?_⟩
  · simp [MerkleTree.insert, MerkleTree.new, MerkleTree.rehash_nodes, MerkleTree.rehash_range]
  · intro h
    simp [MerkleTree.hash]
    exact fun heq => h heq.symm

/-- Witness for C10 at a concrete leaf whose digest is not the default. -/
theorem claim_C10_witness :
    MerkleTree.new.insert 0 (⟨hh 1, ()⟩ : Leaf Unit) = some { nodes := [], leaves := [⟨hh 1, ()⟩] } ∧
    MerkleTree.hash { nodes := ([] : List Hash), leaves := [(⟨hh 1, ()⟩ : Leaf Unit)] } ≠ hh 1 :=
  ⟨(claim_C10_amended ⟨hh 1, ()⟩).1,
   (claim_C10_amended (⟨hh 1, ()⟩ : Leaf Unit)).2.2.2 (by decide)⟩

end Merkle
